import Mathlib

/-!
# The phi-2 C example of onnxruntime-genai (`examples/phi2/c/phi.c`)

The example is a straight line of calls into the generative-AI runtime library,
each guarded by `CheckResult`, followed by one `for` loop that prints the decoded
strings and one call that releases them.

The library itself is not part of the example.  It is taken here as a parameter
`Lib σ`: a record of functions over an arbitrary library state `σ`, one per API
function the example calls.  Running the example against a library yields the
ordered list of observable events (library calls with arguments and results,
`CheckResult` invocations, owning-wrapper constructions, reads of `out_strings`,
writes to `std::cout`) together with the way the run ended.
-/

namespace Phi

/-! ## Data model -/

/-- Number of values of `size_t`; a 64-bit target is assumed. -/
abbrev SIZE_MOD : Nat := 18446744073709551616

/-- The C type `size_t`, arithmetic modulo `SIZE_MOD`. -/
abbrev size_t : Type := Fin SIZE_MOD

/-- Result code of a library call as seen by `CheckResult`. -/
inductive OgaResult where
  | success
  | failure (code : Nat)
  deriving DecidableEq, Repr

/-- Device selector handed to `OgaCreateModel`; the example only uses the CPU constant. -/
inductive OgaDeviceType where
  | OgaDeviceTypeCPU
  | other (tag : Nat)
  deriving DecidableEq, Repr

/-- Value of an `OgaModel*`. -/
structure OgaModel where
  addr : Nat
  deriving DecidableEq, Repr

/-- Value of an `OgaTokenizer*`. -/
structure OgaTokenizer where
  addr : Nat
  deriving DecidableEq, Repr

/-- Value of an `OgaSequences*`. -/
structure OgaSequences where
  addr : Nat
  deriving DecidableEq, Repr

/-- Value of an `OgaGeneratorParams*`. -/
structure OgaGeneratorParams where
  addr : Nat
  deriving DecidableEq, Repr

/-- Value of the `const char**` written by `OgaTokenizerDecodeBatch`: where the array
lives and the strings it holds. -/
structure StringArray where
  addr : Nat
  data : List String
  deriving DecidableEq, Repr

/-- An opaque library handle of one of the four handle types. -/
inductive Handle where
  | model (h : OgaModel)
  | tokenizer (h : OgaTokenizer)
  | sequences (h : OgaSequences)
  | params (h : OgaGeneratorParams)
  deriving DecidableEq, Repr

/-- A library call together with the arguments the program passed. -/
inductive Call where
  | OgaCreateModel (path : String) (device : OgaDeviceType)
  | OgaCreateTokenizer (model : OgaModel)
  | OgaTokenizerEncodeBatch (tokenizer : OgaTokenizer) (strings : List String) (count : size_t)
  | OgaCreateGeneratorParams (model : OgaModel)
  | OgaGeneratorParamsSetMaxLength (params : OgaGeneratorParams) (max_length : Nat)
  | OgaGeneratorParamsSetInputSequences (params : OgaGeneratorParams) (sequences : OgaSequences)
  | OgaGenerate (model : OgaModel) (params : OgaGeneratorParams)
  | OgaTokenizerDecodeBatch (tokenizer : OgaTokenizer) (sequences : OgaSequences)
  | OgaSequencesCount (sequences : OgaSequences)
  | OgaTokenizerDestroyStrings (strings : StringArray) (count : size_t)
  deriving DecidableEq, Repr

/-- What a library call wrote through its out-parameter. -/
inductive Out where
  | nothing
  | handle (h : Handle)
  | strings (a : StringArray)
  deriving DecidableEq, Repr

/-- What a library call gave back: a result code (with the out-parameter), a count,
or nothing that the program looks at. -/
inductive Ret where
  | status (r : OgaResult) (out : Out)
  | count (n : size_t)
  | void
  deriving DecidableEq, Repr

/-- Observable events of a run, in program order. -/
inductive Event where
  | lib (c : Call) (r : Ret)
  | check (r : OgaResult)
  | wrap (var : String) (h : Handle)
  | read (a : StringArray) (i : size_t)
  | cout (text : Option String)
  | endl
  deriving DecidableEq, Repr

/-- The library as the example sees it: one function per API entry point, over a
library state `σ`.  A function with an out-parameter returns the value it wrote. -/
structure Lib (σ : Type) where
  OgaCreateModel : String → OgaDeviceType → σ → OgaResult × OgaModel × σ
  OgaCreateTokenizer : OgaModel → σ → OgaResult × OgaTokenizer × σ
  OgaTokenizerEncodeBatch : OgaTokenizer → List String → size_t → σ → OgaResult × OgaSequences × σ
  OgaCreateGeneratorParams : OgaModel → σ → OgaResult × OgaGeneratorParams × σ
  OgaGeneratorParamsSetMaxLength : OgaGeneratorParams → Nat → σ → OgaResult × σ
  OgaGeneratorParamsSetInputSequences : OgaGeneratorParams → OgaSequences → σ → OgaResult × σ
  OgaGenerate : OgaModel → OgaGeneratorParams → σ → OgaResult × OgaSequences × σ
  OgaTokenizerDecodeBatch : OgaTokenizer → OgaSequences → σ → OgaResult × StringArray × σ
  OgaSequencesCount : OgaSequences → σ → size_t × σ
  OgaTokenizerDestroyStrings : StringArray → size_t → σ → σ

/-! ## Execution -/

/-- Result of running a piece of the program: the events it produced, the value it
computed (`none` when `CheckResult` aborted the program) and the library state. -/
structure Res (σ α : Type) where
  trace : List Event
  value : Option α
  lib : σ

/-- A piece of the program: a function of the library state. -/
def Prog (σ α : Type) : Type := σ → Res σ α

/-- Return a value without any effect. -/
def Prog.pure {σ α : Type} (a : α) : Prog σ α := fun s => ⟨[], some a, s⟩

/-- Sequencing: the second part runs only when the first was not aborted. -/
def Prog.bind {σ α β : Type} (x : Prog σ α) (f : α → Prog σ β) : Prog σ β := fun s =>
  match x s with
  | ⟨t, some a, s1⟩ =>
    match f a s1 with
    | ⟨u, b, s2⟩ => ⟨t ++ u, b, s2⟩
  | ⟨t, none, s1⟩ => ⟨t, none, s1⟩

instance {σ : Type} : Monad (Prog σ) where
  pure := Prog.pure
  bind := Prog.bind

variable {σ : Type}

/-- A result code paired with the value written through the out-parameter. -/
structure Checked (α : Type) where
  code : OgaResult
  out : α

/-- Call `OgaCreateModel(path, device, &model)`. -/
def OgaCreateModel (L : Lib σ) (path : String) (device : OgaDeviceType) :
    Prog σ (Checked OgaModel) := fun s =>
  let a := L.OgaCreateModel path device s
  ⟨[.lib (.OgaCreateModel path device) (.status a.1 (.handle (.model a.2.1)))],
    some ⟨a.1, a.2.1⟩, a.2.2⟩

/-- Call `OgaCreateTokenizer(model, &tokenizer)`. -/
def OgaCreateTokenizer (L : Lib σ) (model : OgaModel) : Prog σ (Checked OgaTokenizer) := fun s =>
  let a := L.OgaCreateTokenizer model s
  ⟨[.lib (.OgaCreateTokenizer model) (.status a.1 (.handle (.tokenizer a.2.1)))],
    some ⟨a.1, a.2.1⟩, a.2.2⟩

/-- Call `OgaTokenizerEncodeBatch(tokenizer, strings, count, &sequences)`. -/
def OgaTokenizerEncodeBatch (L : Lib σ) (tokenizer : OgaTokenizer) (strings : List String)
    (count : size_t) : Prog σ (Checked OgaSequences) := fun s =>
  let a := L.OgaTokenizerEncodeBatch tokenizer strings count s
  ⟨[.lib (.OgaTokenizerEncodeBatch tokenizer strings count)
      (.status a.1 (.handle (.sequences a.2.1)))],
    some ⟨a.1, a.2.1⟩, a.2.2⟩

/-- Call `OgaCreateGeneratorParams(model, &params)`. -/
def OgaCreateGeneratorParams (L : Lib σ) (model : OgaModel) :
    Prog σ (Checked OgaGeneratorParams) := fun s =>
  let a := L.OgaCreateGeneratorParams model s
  ⟨[.lib (.OgaCreateGeneratorParams model) (.status a.1 (.handle (.params a.2.1)))],
    some ⟨a.1, a.2.1⟩, a.2.2⟩

/-- Call `OgaGeneratorParamsSetMaxLength(params, max_length)`. -/
def OgaGeneratorParamsSetMaxLength (L : Lib σ) (params : OgaGeneratorParams) (max_length : Nat) :
    Prog σ (Checked Unit) := fun s =>
  let a := L.OgaGeneratorParamsSetMaxLength params max_length s
  ⟨[.lib (.OgaGeneratorParamsSetMaxLength params max_length) (.status a.1 .nothing)],
    some ⟨a.1, ()⟩, a.2⟩

/-- Call `OgaGeneratorParamsSetInputSequences(params, sequences)`. -/
def OgaGeneratorParamsSetInputSequences (L : Lib σ) (params : OgaGeneratorParams)
    (sequences : OgaSequences) : Prog σ (Checked Unit) := fun s =>
  let a := L.OgaGeneratorParamsSetInputSequences params sequences s
  ⟨[.lib (.OgaGeneratorParamsSetInputSequences params sequences) (.status a.1 .nothing)],
    some ⟨a.1, ()⟩, a.2⟩

/-- Call `OgaGenerate(model, params, &output_sequences)`. -/
def OgaGenerate (L : Lib σ) (model : OgaModel) (params : OgaGeneratorParams) :
    Prog σ (Checked OgaSequences) := fun s =>
  let a := L.OgaGenerate model params s
  ⟨[.lib (.OgaGenerate model params) (.status a.1 (.handle (.sequences a.2.1)))],
    some ⟨a.1, a.2.1⟩, a.2.2⟩

/-- Call `OgaTokenizerDecodeBatch(tokenizer, sequences, &out_strings)`. -/
def OgaTokenizerDecodeBatch (L : Lib σ) (tokenizer : OgaTokenizer) (sequences : OgaSequences) :
    Prog σ (Checked StringArray) := fun s =>
  let a := L.OgaTokenizerDecodeBatch tokenizer sequences s
  ⟨[.lib (.OgaTokenizerDecodeBatch tokenizer sequences) (.status a.1 (.strings a.2.1))],
    some ⟨a.1, a.2.1⟩, a.2.2⟩

/-- Call `OgaSequencesCount(sequences)`; the value is the count itself. -/
def OgaSequencesCount (L : Lib σ) (sequences : OgaSequences) : Prog σ size_t := fun s =>
  let a := L.OgaSequencesCount sequences s
  ⟨[.lib (.OgaSequencesCount sequences) (.count a.1)], some a.1, a.2⟩

/-- Call `OgaTokenizerDestroyStrings(strings, count)`; nothing comes back. -/
def OgaTokenizerDestroyStrings (L : Lib σ) (strings : StringArray) (count : size_t) :
    Prog σ Unit := fun s =>
  ⟨[.lib (.OgaTokenizerDestroyStrings strings count) .void], some (),
    L.OgaTokenizerDestroyStrings strings count s⟩

/-- Modelled from the spec: the helper `CheckResult`, which the example calls but does
not define.  It receives the result code of a library call and aborts the program on a
non-success code; on success the program goes on. -/
def CheckResult (r : OgaResult) : Prog σ Unit := fun s =>
  match r with
  | .success => ⟨[.check r], some (), s⟩
  | .failure _ => ⟨[.check r], none, s⟩

/-- Construction of an owning wrapper, `OgaXxxPtr var{handle};`. -/
def wrap (var : String) (h : Handle) : Prog σ Unit := fun s => ⟨[.wrap var h], some (), s⟩

/-- The expression `out_strings[i]`: the read is recorded; the value is the element
when `i` is inside the array and indeterminate (`none`) otherwise. -/
def index (out_strings : StringArray) (i : size_t) : Prog σ (Option String) := fun s =>
  ⟨[.read out_strings i], some (out_strings.data[i.val]?), s⟩

/-- One `<<` of a string to `std::cout`. -/
def cout (text : Option String) : Prog σ Unit := fun s => ⟨[.cout text], some (), s⟩

/-- The manipulator `std::endl` sent to `std::cout`. -/
def endl : Prog σ Unit := fun s => ⟨[.endl], some (), s⟩

/-- The array `input_strings` of lines 11-15. -/
def input_strings : List String :=
  ["This is a test.", "Rats are awesome pets!", "The quick brown fox jumps over the lazy dog."]

/-- The value of `std::size(xs)` as a `size_t`. -/
def std_size (xs : List String) : size_t := ⟨xs.length % SIZE_MOD, Nat.mod_lt _ (by decide)⟩

/-- The loop of lines 35-37 from the current value of `i` on:
`for (; i < OgaSequencesCount(output_sequences); i++) std::cout << ... << std::endl;` -/
def forLoop (L : Lib σ) (output_sequences : OgaSequences) (out_strings : StringArray)
    (i : size_t) : Prog σ Unit := do
  let n ← OgaSequencesCount L output_sequences
  if h : i < n then
    cout (some "Decoded string:")
    let elem ← index out_strings i
    cout elem
    endl
    forLoop L output_sequences out_strings (i + 1)
  else
    pure ()
termination_by SIZE_MOD - i.val
decreasing_by
  have h1 : i.val < n.val := h
  have h3 : (i + 1).val = i.val + 1 := by
    rw [Fin.val_add]
    exact Nat.mod_eq_of_lt (show i.val + 1 < SIZE_MOD by omega)
  omega

/-- The example, lines 3-38.  `MODEL_PATH` is a macro defined outside the file. -/
def main (MODEL_PATH : String) (L : Lib σ) : Prog σ Unit := do
  let c1 ← OgaCreateModel L (MODEL_PATH ++ "example-models/phi2-int4-cpu") .OgaDeviceTypeCPU
  CheckResult c1.code
  let model := c1.out
  wrap "model_ptr" (.model model)
  let c2 ← OgaCreateTokenizer L model
  CheckResult c2.code
  let tokenizer := c2.out
  wrap "tokenizer_ptr" (.tokenizer tokenizer)
  let c3 ← OgaTokenizerEncodeBatch L tokenizer input_strings (std_size input_strings)
  CheckResult c3.code
  let input_sequences := c3.out
  wrap "sequences_ptr" (.sequences input_sequences)
  let c4 ← OgaCreateGeneratorParams L model
  CheckResult c4.code
  let params := c4.out
  wrap "params_ptr" (.params params)
  let c5 ← OgaGeneratorParamsSetMaxLength L params 20
  CheckResult c5.code
  let c6 ← OgaGeneratorParamsSetInputSequences L params input_sequences
  CheckResult c6.code
  let c7 ← OgaGenerate L model params
  CheckResult c7.code
  let output_sequences := c7.out
  wrap "output_sequences_ptr" (.sequences output_sequences)
  let c8 ← OgaTokenizerDecodeBatch L tokenizer output_sequences
  CheckResult c8.code
  let out_strings := c8.out
  forLoop L output_sequences out_strings 0
  let count ← OgaSequencesCount L output_sequences
  OgaTokenizerDestroyStrings L out_strings count

/-! ## Observations on a trace -/

/-- Names of the library functions the example calls. -/
inductive Api where
  | OgaCreateModel
  | OgaCreateTokenizer
  | OgaTokenizerEncodeBatch
  | OgaCreateGeneratorParams
  | OgaGeneratorParamsSetMaxLength
  | OgaGeneratorParamsSetInputSequences
  | OgaGenerate
  | OgaTokenizerDecodeBatch
  | OgaSequencesCount
  | OgaTokenizerDestroyStrings
  deriving DecidableEq, Repr

/-- The library function a call goes to. -/
def Call.api : Call → Api
  | .OgaCreateModel _ _ => .OgaCreateModel
  | .OgaCreateTokenizer _ => .OgaCreateTokenizer
  | .OgaTokenizerEncodeBatch _ _ _ => .OgaTokenizerEncodeBatch
  | .OgaCreateGeneratorParams _ => .OgaCreateGeneratorParams
  | .OgaGeneratorParamsSetMaxLength _ _ => .OgaGeneratorParamsSetMaxLength
  | .OgaGeneratorParamsSetInputSequences _ _ => .OgaGeneratorParamsSetInputSequences
  | .OgaGenerate _ _ => .OgaGenerate
  | .OgaTokenizerDecodeBatch _ _ => .OgaTokenizerDecodeBatch
  | .OgaSequencesCount _ => .OgaSequencesCount
  | .OgaTokenizerDestroyStrings _ _ => .OgaTokenizerDestroyStrings

/-- The handles a call receives as arguments. -/
def Call.handleArgs : Call → List Handle
  | .OgaCreateModel _ _ => []
  | .OgaCreateTokenizer m => [.model m]
  | .OgaTokenizerEncodeBatch t _ _ => [.tokenizer t]
  | .OgaCreateGeneratorParams m => [.model m]
  | .OgaGeneratorParamsSetMaxLength p _ => [.params p]
  | .OgaGeneratorParamsSetInputSequences p q => [.params p, .sequences q]
  | .OgaGenerate m p => [.model m, .params p]
  | .OgaTokenizerDecodeBatch t q => [.tokenizer t, .sequences q]
  | .OgaSequencesCount q => [.sequences q]
  | .OgaTokenizerDestroyStrings _ _ => []

/-- The library calls of a trace, in order. -/
def calls (tr : List Event) : List Call :=
  tr.filterMap fun e => match e with
    | .lib c _ => some c
    | _ => none

/-- The library functions called in a trace, in order. -/
def apis (tr : List Event) : List Api := (calls tr).map Call.api

/-- The result codes handed to `CheckResult`, in order. -/
def checks (tr : List Event) : List OgaResult :=
  tr.filterMap fun e => match e with
    | .check r => some r
    | _ => none

/-- Every `CheckResult` of the trace received a success code. -/
def allChecksSucceed (tr : List Event) : Bool := (checks tr).all fun r => r == .success

/-- A step of the run as the call-order claim sees it: a library call other than the
count query, or one executed print statement. -/
inductive Mark where
  | call (a : Api)
  | print
  deriving DecidableEq, Repr

/-- The steps of a trace: count queries are left out, a print statement is marked where
it ends (`std::endl`). -/
def marks (tr : List Event) : List Mark :=
  tr.filterMap fun e => match e with
    | .lib (.OgaSequencesCount _) _ => none
    | .lib c _ => some (.call c.api)
    | .endl => some .print
    | _ => none

/-- The eight checked calls of the success path, in source order. -/
def checkedApis : List Api :=
  [.OgaCreateModel, .OgaCreateTokenizer, .OgaTokenizerEncodeBatch, .OgaCreateGeneratorParams,
    .OgaGeneratorParamsSetMaxLength, .OgaGeneratorParamsSetInputSequences, .OgaGenerate,
    .OgaTokenizerDecodeBatch]

/-- Number of executed print statements (line 36). -/
def printCount (tr : List Event) : Nat := tr.count .endl

/-- What went to `std::cout`, in order. -/
def stdout (tr : List Event) : List Event :=
  tr.filter fun e => match e with
    | .cout _ => true
    | .endl => true
    | _ => false

/-- The counts that `OgaSequencesCount` reported, in order. -/
def countReports (tr : List Event) : List size_t :=
  tr.filterMap fun e => match e with
    | .lib (.OgaSequencesCount _) (.count n) => some n
    | _ => none

/-- The reads of a decoded array: which array, at which index. -/
def reads (tr : List Event) : List (StringArray × size_t) :=
  tr.filterMap fun e => match e with
    | .read a i => some (a, i)
    | _ => none

/-- The arrays written by `OgaTokenizerDecodeBatch`. -/
def decoded (tr : List Event) : List StringArray :=
  tr.filterMap fun e => match e with
    | .lib (.OgaTokenizerDecodeBatch _ _) (.status _ (.strings a)) => some a
    | _ => none

/-- Whether an event is a call of `OgaTokenizerDestroyStrings`. -/
def isDestroy : Event → Bool
  | .lib (.OgaTokenizerDestroyStrings _ _) _ => true
  | _ => false

/-- The events from the first `OgaTokenizerDestroyStrings` call on. -/
def fromDestroy (tr : List Event) : List Event := tr.dropWhile fun e => !isDestroy e

/-- Whether the events following a library call start with `CheckResult` applied to the
result code that call returned. -/
def checkedNext (ret : Ret) (rest : List Event) : Bool :=
  match ret, rest with
  | .status r _, .check r2 :: _ => r == r2
  | _, _ => false

/-- The library calls whose result is not passed to `CheckResult` right after the call. -/
def unchecked : List Event → List Call
  | [] => []
  | .lib c ret :: es => if checkedNext ret es then unchecked es else c :: unchecked es
  | _ :: es => unchecked es

/-- The calls the program makes without `CheckResult`. -/
def isBareCall (c : Call) : Bool :=
  c.api == .OgaSequencesCount || c.api == .OgaTokenizerDestroyStrings

/-- Call and out-parameter value of every call that returns a result code. -/
def produced (tr : List Event) : List (Call × Out) :=
  tr.filterMap fun e => match e with
    | .lib c (.status _ o) => some (c, o)
    | _ => none

/-- Library function and result code of every call that returns a result code. -/
def returned (tr : List Event) : List (Api × OgaResult) :=
  tr.filterMap fun e => match e with
    | .lib c (.status r _) => some (c.api, r)
    | _ => none

/-- The handles written by creating calls that reported success, in order. -/
def created (tr : List Event) : List Handle :=
  tr.filterMap fun e => match e with
    | .lib _ (.status .success (.handle h)) => some h
    | _ => none

/-- The handles placed in owning wrappers, in order. -/
def wrapped (tr : List Event) : List Handle :=
  tr.filterMap fun e => match e with
    | .wrap _ h => some h
    | _ => none

/-- The wrapper variables constructed, in order. -/
def wrapVars (tr : List Event) : List String :=
  tr.filterMap fun e => match e with
    | .wrap v _ => some v
    | _ => none

/-- Every handle argument of every library call was written earlier in the trace by a
creating call that reported success; `known` holds the handles written so far. -/
def provenance (known : List Handle) : List Event → Bool
  | [] => true
  | .lib c (.status .success (.handle h)) :: es =>
    c.handleArgs.all (fun x => decide (x ∈ known)) && provenance (h :: known) es
  | .lib c _ :: es => c.handleArgs.all (fun x => decide (x ∈ known)) && provenance known es
  | _ :: es => provenance known es

/-- Wrapper discipline: a creating call that reported success has, right after its
`CheckResult`, the construction of a wrapper around the handle it wrote; wrappers are
constructed nowhere else. -/
def wrapDiscipline : List Event → Bool
  | [] => true
  | .lib _ (.status .success (.handle h)) :: .check .success :: .wrap _ h2 :: es =>
    h == h2 && wrapDiscipline es
  | .lib _ (.status .success (.handle _)) :: .check .success :: _ => false
  | .wrap _ _ :: _ => false
  | _ :: es => wrapDiscipline es

/-- Modelled from the spec: the owning wrappers `OgaModelPtr`, `OgaTokenizerPtr`,
`OgaSequencesPtr` and `OgaGeneratorParamsPtr`, whose declarations are outside the
example.  Each releases the handle it holds when it goes out of scope; wrappers leave
scope in reverse order of construction.  The value is the list of handles released. -/
def scopeExit (tr : List Event) : List Handle := (wrapped tr).reverse

/-- The first `OgaGenerate` call of a trace: the model and the parameters it received. -/
def generateCall (tr : List Event) : Option (OgaModel × OgaGeneratorParams) :=
  tr.findSome? fun e => match e with
    | .lib (.OgaGenerate m p) _ => some (m, p)
    | _ => none

/-- Whether an event is a call of `OgaGenerate`. -/
def isGenerate : Event → Bool
  | .lib (.OgaGenerate _ _) _ => true
  | _ => false

/-- The events that precede the first `OgaGenerate` call. -/
def beforeGenerate (tr : List Event) : List Event := tr.takeWhile fun e => !isGenerate e

/-- The calls of a trace that receive the parameters object `p`. -/
def callsOn (p : OgaGeneratorParams) (tr : List Event) : List Call :=
  (calls tr).filter fun c => decide (Handle.params p ∈ c.handleArgs)

/-! ## Explicit event sequences -/

/-- The `size_t` with value `i` (reduced modulo `SIZE_MOD`). -/
def toSize (i : Nat) : size_t := ⟨i % SIZE_MOD, Nat.mod_lt _ (by decide)⟩

/-- The values held by the six variables of the example. -/
structure Handles where
  model : OgaModel
  tokenizer : OgaTokenizer
  input_sequences : OgaSequences
  params : OgaGeneratorParams
  output_sequences : OgaSequences
  out_strings : StringArray

/-- The events of lines 3-34 when no check aborts: `r j` is the result code of the
checked call number `j` (from 0), `h` the values written through the out-parameters. -/
def straightLine (P : String) (h : Handles) (r : Nat → OgaResult) : List Event :=
  [ .lib (.OgaCreateModel (P ++ "example-models/phi2-int4-cpu") .OgaDeviceTypeCPU)
      (.status (r 0) (.handle (.model h.model))),
    .check (r 0),
    .wrap "model_ptr" (.model h.model),
    .lib (.OgaCreateTokenizer h.model) (.status (r 1) (.handle (.tokenizer h.tokenizer))),
    .check (r 1),
    .wrap "tokenizer_ptr" (.tokenizer h.tokenizer),
    .lib (.OgaTokenizerEncodeBatch h.tokenizer input_strings (std_size input_strings))
      (.status (r 2) (.handle (.sequences h.input_sequences))),
    .check (r 2),
    .wrap "sequences_ptr" (.sequences h.input_sequences),
    .lib (.OgaCreateGeneratorParams h.model) (.status (r 3) (.handle (.params h.params))),
    .check (r 3),
    .wrap "params_ptr" (.params h.params),
    .lib (.OgaGeneratorParamsSetMaxLength h.params 20) (.status (r 4) .nothing),
    .check (r 4),
    .lib (.OgaGeneratorParamsSetInputSequences h.params h.input_sequences)
      (.status (r 5) .nothing),
    .check (r 5),
    .lib (.OgaGenerate h.model h.params) (.status (r 6) (.handle (.sequences h.output_sequences))),
    .check (r 6),
    .wrap "output_sequences_ptr" (.sequences h.output_sequences),
    .lib (.OgaTokenizerDecodeBatch h.tokenizer h.output_sequences)
      (.status (r 7) (.strings h.out_strings)),
    .check (r 7) ]

/-- A trace cut right after its first failed check. -/
def cut : List Event → List Event
  | [] => []
  | .check (.failure c) :: _ => [.check (.failure c)]
  | e :: es => e :: cut es

/-- All eight checked calls report success. -/
def okCodes : Nat → OgaResult := fun _ => .success

/-- Checked call number `k` reports `failure code`, the others success. -/
def failCodes (k code : Nat) : Nat → OgaResult := fun j =>
  if j = k then .failure code else .success

/-- The events of the loop of lines 35-37 started at index `i`: `cs` are the counts reported
at the tests that let an iteration run, `cexit` the count reported at the test that ended
the loop. -/
def loopEvents (o : OgaSequences) (a : StringArray) (i : Nat) (cs : List size_t)
    (cexit : size_t) : List Event :=
  match cs with
  | [] => [.lib (.OgaSequencesCount o) (.count cexit)]
  | c :: cs =>
    [.lib (.OgaSequencesCount o) (.count c), .cout (some "Decoded string:"),
      .read a (toSize i), .cout (a.data[i]?), .endl] ++ loopEvents o a (i + 1) cs cexit

/-- The loop tests behind `loopEvents`: each count in `cs` was above the index it was
compared with, and `cexit` was not. -/
def Guarded (i : Nat) (cs : List size_t) (cexit : size_t) : Prop :=
  match cs with
  | [] => ¬ i < cexit.val
  | c :: cs => i < c.val ∧ Guarded (i + 1) cs cexit

/-- The events of line 38: the count query and the release of the decoded strings. -/
def tailEvents (h : Handles) (c : size_t) : List Event :=
  [.lib (.OgaSequencesCount h.output_sequences) (.count c),
    .lib (.OgaTokenizerDestroyStrings h.out_strings c) .void]

/-- Call and out-parameter value of the eight checked calls on the success path. -/
def dataflow (P : String) (h : Handles) : List (Call × Out) :=
  [ (.OgaCreateModel (P ++ "example-models/phi2-int4-cpu") .OgaDeviceTypeCPU,
      .handle (.model h.model)),
    (.OgaCreateTokenizer h.model, .handle (.tokenizer h.tokenizer)),
    (.OgaTokenizerEncodeBatch h.tokenizer input_strings (std_size input_strings),
      .handle (.sequences h.input_sequences)),
    (.OgaCreateGeneratorParams h.model, .handle (.params h.params)),
    (.OgaGeneratorParamsSetMaxLength h.params 20, .nothing),
    (.OgaGeneratorParamsSetInputSequences h.params h.input_sequences, .nothing),
    (.OgaGenerate h.model h.params, .handle (.sequences h.output_sequences)),
    (.OgaTokenizerDecodeBatch h.tokenizer h.output_sequences, .strings h.out_strings) ]

/-- The five wrapper constructions of the success path. -/
def fiveWraps (h : Handles) : List (String × Handle) :=
  [ ("model_ptr", .model h.model), ("tokenizer_ptr", .tokenizer h.tokenizer),
    ("sequences_ptr", .sequences h.input_sequences), ("params_ptr", .params h.params),
    ("output_sequences_ptr", .sequences h.output_sequences) ]

/-- Put events in front of a result. -/
def Res.prepend {α : Type} (t : List Event) (R : Res σ α) : Res σ α :=
  ⟨t ++ R.trace, R.value, R.lib⟩

/-! ## A scripted library for concrete runs -/

/-- Result code of the scripted library: the call number `failAt` (from 1) fails with
code 7, every other call succeeds. -/
def scriptCode (failAt s : Nat) : OgaResult :=
  if s + 1 = failAt then .failure 7 else .success

/-- A library whose state counts the checked calls made so far.  It reports the count `n`
for every collection and decodes to the strings `strs`. -/
def script (n : size_t) (strs : List String) (failAt : Nat) : Lib Nat where
  OgaCreateModel := fun _ _ s => (scriptCode failAt s, ⟨100⟩, s + 1)
  OgaCreateTokenizer := fun _ s => (scriptCode failAt s, ⟨200⟩, s + 1)
  OgaTokenizerEncodeBatch := fun _ _ _ s => (scriptCode failAt s, ⟨300⟩, s + 1)
  OgaCreateGeneratorParams := fun _ s => (scriptCode failAt s, ⟨400⟩, s + 1)
  OgaGeneratorParamsSetMaxLength := fun _ _ s => (scriptCode failAt s, s + 1)
  OgaGeneratorParamsSetInputSequences := fun _ _ s => (scriptCode failAt s, s + 1)
  OgaGenerate := fun _ _ s => (scriptCode failAt s, ⟨500⟩, s + 1)
  OgaTokenizerDecodeBatch := fun _ _ s => (scriptCode failAt s, ⟨600, strs⟩, s + 1)
  OgaSequencesCount := fun _ s => (n, s)
  OgaTokenizerDestroyStrings := fun _ _ s => s

/-- The values the scripted library writes. -/
def scriptHandles (strs : List String) : Handles :=
  ⟨⟨100⟩, ⟨200⟩, ⟨300⟩, ⟨400⟩, ⟨500⟩, ⟨600, strs⟩⟩


/-! ## Execution lemmas -/

theorem bind_apply {α β : Type} (x : Prog σ α) (f : α → Prog σ β) (s : σ) :
    (x >>= f) s = match x s with
      | ⟨t, some a, s1⟩ => ⟨t ++ (f a s1).trace, (f a s1).value, (f a s1).lib⟩
      | ⟨t, none, s1⟩ => ⟨t, none, s1⟩ := by
  show Prog.bind x f s = _
  unfold Prog.bind
  rcases x s with ⟨t, _ | a, s1⟩ <;> rfl

theorem pure_apply {α : Type} (a : α) (s : σ) : (pure a : Prog σ α) s = ⟨[], some a, s⟩ := rfl

theorem bind_some {α β : Type} (x : Prog σ α) (f : α → Prog σ β) (s : σ) (t : List Event)
    (a : α) (s1 : σ) (hx : x s = ⟨t, some a, s1⟩) : (x >>= f) s = (f a s1).prepend t := by
  rw [bind_apply, hx]; rfl

theorem bind_none {α β : Type} (x : Prog σ α) (f : α → Prog σ β) (s : σ) (t : List Event)
    (s1 : σ) (hx : x s = ⟨t, none, s1⟩) : (x >>= f) s = ⟨t, none, s1⟩ := by
  rw [bind_apply, hx]

theorem check_success (s : σ) :
    (CheckResult .success : Prog σ Unit) s = ⟨[.check .success], some (), s⟩ := rfl

theorem check_failure (c : Nat) (s : σ) :
    (CheckResult (.failure c) : Prog σ Unit) s = ⟨[.check (.failure c)], none, s⟩ := rfl

theorem wrap_apply (v : String) (h : Handle) (s : σ) :
    (wrap v h : Prog σ Unit) s = ⟨[.wrap v h], some (), s⟩ := rfl

theorem count_apply (L : Lib σ) (o : OgaSequences) (s : σ) :
    OgaSequencesCount L o s = ⟨[.lib (.OgaSequencesCount o) (.count (L.OgaSequencesCount o s).1)],
      some (L.OgaSequencesCount o s).1, (L.OgaSequencesCount o s).2⟩ := rfl

theorem toSize_val (i : size_t) : toSize i.val = i := by
  apply Fin.ext
  simp [toSize, Nat.mod_eq_of_lt i.isLt]

theorem succ_val (i n : size_t) (h : i < n) : (i + 1).val = i.val + 1 := by
  have h1 : i.val < n.val := h
  rw [Fin.val_add]
  exact Nat.mod_eq_of_lt (show i.val + 1 < SIZE_MOD by omega)

/-- Shape of any run of the loop: it ends, it is never aborted, and its events are those
of `loopEvents` for the counts the library reported. -/
theorem forLoop_shape (L : Lib σ) (o : OgaSequences) (a : StringArray) (i : size_t) :
    ∀ s : σ, ∃ cs cexit,
      (forLoop L o a i s).trace = loopEvents o a i.val cs cexit ∧
      (forLoop L o a i s).value = some () ∧
      Guarded i.val cs cexit ∧
      (∀ c ∈ cexit :: cs, ∃ s1, c = (L.OgaSequencesCount o s1).1) := by
  induction i using forLoop.induct L o a with
  | _ i ih =>
    intro s
    rw [forLoop]
    by_cases h : i < (L.OgaSequencesCount o s).1
    · obtain ⟨cs, cexit, h1, h2, h3, h4⟩ := ih _ h (L.OgaSequencesCount o s).2
      refine ⟨(L.OgaSequencesCount o s).1 :: cs, cexit, ?_, ?_, ?_, ?_⟩
      · simp [bind_apply, OgaSequencesCount, h, cout, index, endl, h1, loopEvents, toSize_val,
          succ_val i _ h]
      · simp [bind_apply, OgaSequencesCount, h, cout, index, endl, h2]
      · exact ⟨h, by rw [← succ_val i _ h]; exact h3⟩
      · intro c hc
        simp only [List.mem_cons] at hc h4
        rcases hc with rfl | rfl | hc
        · exact h4 _ (Or.inl rfl)
        · exact ⟨s, rfl⟩
        · exact h4 _ (Or.inr hc)
    · refine ⟨[], (L.OgaSequencesCount o s).1, ?_, ?_, ?_, ?_⟩
      · simp [bind_apply, OgaSequencesCount, h, pure_apply, loopEvents]
      · simp [bind_apply, OgaSequencesCount, h, pure_apply]
      · exact h
      · intro c hc
        simp only [List.mem_cons, List.mem_nil_iff, or_false] at hc
        exact ⟨s, hc⟩

/-- Shape of any run of the example: either all eight checks pass and the trace is the
straight line, the loop and the release, or check number `k` is the first to fail and the
trace is the straight line cut right after it. -/
theorem main_shape (P : String) (L : Lib σ) (s : σ) :
    (∃ h cs cexit c,
      (main P L s).trace = straightLine P h okCodes ++
        (loopEvents h.output_sequences h.out_strings 0 cs cexit ++ tailEvents h c) ∧
      (main P L s).value = some () ∧ Guarded 0 cs cexit) ∨
    (∃ h k code, k < 8 ∧ (main P L s).trace = cut (straightLine P h (failCodes k code)) ∧
      (main P L s).value = none) := by
  rcases h1 : L.OgaCreateModel (P ++ "example-models/phi2-int4-cpu") .OgaDeviceTypeCPU s
    with ⟨r1, m, s1⟩
  rcases h2 : L.OgaCreateTokenizer m s1 with ⟨r2, t, s2⟩
  rcases h3 : L.OgaTokenizerEncodeBatch t input_strings (std_size input_strings) s2
    with ⟨r3, iseq, s3⟩
  rcases h4 : L.OgaCreateGeneratorParams m s3 with ⟨r4, p, s4⟩
  rcases h5 : L.OgaGeneratorParamsSetMaxLength p 20 s4 with ⟨r5, s5⟩
  rcases h6 : L.OgaGeneratorParamsSetInputSequences p iseq s5 with ⟨r6, s6⟩
  rcases h7 : L.OgaGenerate m p s6 with ⟨r7, oseq, s7⟩
  rcases h8 : L.OgaTokenizerDecodeBatch t oseq s7 with ⟨r8, arr, s8⟩
  obtain ⟨cs, cexit, hl1, hl2, hl3, -⟩ := forLoop_shape L oseq arr 0 s8
  rcases hF : forLoop L oseq arr 0 s8 with ⟨lt, lv, ls⟩
  rw [hF] at hl1 hl2
  have hl1b : lt = loopEvents oseq arr 0 cs cexit := hl1
  have hl2b : lv = some () := hl2
  subst hl1b hl2b
  generalize hR : main P L s = R
  unfold main at hR
  rw [bind_some _ _ s _ _ _ (by simp only [OgaCreateModel, h1]; rfl)] at hR
  cases r1 with
  | failure c =>
    rw [bind_none _ _ s1 _ _ (check_failure c s1)] at hR
    subst hR
    exact Or.inr ⟨⟨m, t, iseq, p, oseq, arr⟩, 0, c, by decide, rfl, rfl⟩
  | success =>
  rw [bind_some _ _ s1 _ _ _ (check_success s1)] at hR
  dsimp only at hR
  rw [bind_some _ _ s1 _ _ _ (wrap_apply _ _ s1)] at hR
  rw [bind_some _ _ s1 _ _ _ (by simp only [OgaCreateTokenizer, h2]; rfl)] at hR
  cases r2 with
  | failure c =>
    rw [bind_none _ _ s2 _ _ (check_failure c s2)] at hR
    subst hR
    exact Or.inr ⟨⟨m, t, iseq, p, oseq, arr⟩, 1, c, by decide, rfl, rfl⟩
  | success =>
  rw [bind_some _ _ s2 _ _ _ (check_success s2)] at hR
  dsimp only at hR
  rw [bind_some _ _ s2 _ _ _ (wrap_apply _ _ s2)] at hR
  rw [bind_some _ _ s2 _ _ _ (by simp only [OgaTokenizerEncodeBatch, h3]; rfl)] at hR
  cases r3 with
  | failure c =>
    rw [bind_none _ _ s3 _ _ (check_failure c s3)] at hR
    subst hR
    exact Or.inr ⟨⟨m, t, iseq, p, oseq, arr⟩, 2, c, by decide, rfl, rfl⟩
  | success =>
  rw [bind_some _ _ s3 _ _ _ (check_success s3)] at hR
  dsimp only at hR
  rw [bind_some _ _ s3 _ _ _ (wrap_apply _ _ s3)] at hR
  rw [bind_some _ _ s3 _ _ _ (by simp only [OgaCreateGeneratorParams, h4]; rfl)] at hR
  cases r4 with
  | failure c =>
    rw [bind_none _ _ s4 _ _ (check_failure c s4)] at hR
    subst hR
    exact Or.inr ⟨⟨m, t, iseq, p, oseq, arr⟩, 3, c, by decide, rfl, rfl⟩
  | success =>
  rw [bind_some _ _ s4 _ _ _ (check_success s4)] at hR
  dsimp only at hR
  rw [bind_some _ _ s4 _ _ _ (wrap_apply _ _ s4)] at hR
  rw [bind_some _ _ s4 _ _ _ (by simp only [OgaGeneratorParamsSetMaxLength, h5]; rfl)] at hR
  cases r5 with
  | failure c =>
    rw [bind_none _ _ s5 _ _ (check_failure c s5)] at hR
    subst hR
    exact Or.inr ⟨⟨m, t, iseq, p, oseq, arr⟩, 4, c, by decide, rfl, rfl⟩
  | success =>
  rw [bind_some _ _ s5 _ _ _ (check_success s5)] at hR
  rw [bind_some _ _ s5 _ _ _ (by simp only [OgaGeneratorParamsSetInputSequences, h6]; rfl)] at hR
  cases r6 with
  | failure c =>
    rw [bind_none _ _ s6 _ _ (check_failure c s6)] at hR
    subst hR
    exact Or.inr ⟨⟨m, t, iseq, p, oseq, arr⟩, 5, c, by decide, rfl, rfl⟩
  | success =>
  rw [bind_some _ _ s6 _ _ _ (check_success s6)] at hR
  rw [bind_some _ _ s6 _ _ _ (by simp only [OgaGenerate, h7]; rfl)] at hR
  cases r7 with
  | failure c =>
    rw [bind_none _ _ s7 _ _ (check_failure c s7)] at hR
    subst hR
    exact Or.inr ⟨⟨m, t, iseq, p, oseq, arr⟩, 6, c, by decide, rfl, rfl⟩
  | success =>
  rw [bind_some _ _ s7 _ _ _ (check_success s7)] at hR
  dsimp only at hR
  rw [bind_some _ _ s7 _ _ _ (wrap_apply _ _ s7)] at hR
  rw [bind_some _ _ s7 _ _ _ (by simp only [OgaTokenizerDecodeBatch, h8]; rfl)] at hR
  cases r8 with
  | failure c =>
    rw [bind_none _ _ s8 _ _ (check_failure c s8)] at hR
    subst hR
    exact Or.inr ⟨⟨m, t, iseq, p, oseq, arr⟩, 7, c, by decide, rfl, rfl⟩
  | success =>
  rw [bind_some _ _ s8 _ _ _ (check_success s8)] at hR
  dsimp only at hR
  rw [bind_some _ _ s8 _ _ _ hF] at hR
  rw [bind_some _ _ ls _ _ _ (count_apply L oseq ls)] at hR
  subst hR
  exact Or.inl ⟨⟨m, t, iseq, p, oseq, arr⟩, cs, cexit, (L.OgaSequencesCount oseq ls).1,
    rfl, rfl, hl3⟩

/-! ## Observations of the loop events -/

theorem checks_append (xs ys : List Event) : checks (xs ++ ys) = checks xs ++ checks ys := by
  simp [checks]

theorem marks_append (xs ys : List Event) : marks (xs ++ ys) = marks xs ++ marks ys := by
  simp [marks]

theorem checks_loopEvents (o : OgaSequences) (a : StringArray) (cs : List size_t)
    (cexit : size_t) : ∀ i, checks (loopEvents o a i cs cexit) = [] := by
  induction cs with
  | nil => intro i; simp [loopEvents, checks]
  | cons c cs ih =>
    intro i
    have := ih (i + 1)
    simp [loopEvents, checks] at this ⊢
    exact this

theorem marks_loopEvents (o : OgaSequences) (a : StringArray) (cs : List size_t)
    (cexit : size_t) : ∀ i, marks (loopEvents o a i cs cexit) = List.replicate cs.length .print := by
  induction cs with
  | nil => intro i; simp [loopEvents, marks]
  | cons c cs ih =>
    intro i
    have := ih (i + 1)
    simp [loopEvents, marks, List.replicate_succ] at this ⊢
    exact this

theorem allChecksSucceed_iff (tr : List Event) :
    allChecksSucceed tr = true ↔ ∀ r ∈ checks tr, r = .success := by
  simp [allChecksSucceed]

theorem not_allChecksSucceed_cut (P : String) (h : Handles) (k code : Nat) (hk : k < 8) :
    allChecksSucceed (cut (straightLine P h (failCodes k code))) = false := by
  interval_cases k <;> simp [allChecksSucceed, checks, cut, straightLine, failCodes]

/-- A run whose checks all succeed has the shape of the success path. -/
theorem main_success (P : String) (L : Lib σ) (s : σ)
    (hok : allChecksSucceed (main P L s).trace = true) :
    ∃ h cs cexit c,
      (main P L s).trace = straightLine P h okCodes ++
        (loopEvents h.output_sequences h.out_strings 0 cs cexit ++ tailEvents h c) ∧
      (main P L s).value = some () ∧ Guarded 0 cs cexit := by
  rcases main_shape P L s with h | ⟨h, k, code, hk, ht, -⟩
  · exact h
  · rw [ht, not_allChecksSucceed_cut P h k code hk] at hok
    cases hok

/-- C1. On every run in which each checked library call reports success, the library
calls other than the count queries, and the print statements, occur in exactly this order:
OgaCreateModel, OgaCreateTokenizer, OgaTokenizerEncodeBatch, OgaCreateGeneratorParams,
OgaGeneratorParamsSetMaxLength, OgaGeneratorParamsSetInputSequences, OgaGenerate,
OgaTokenizerDecodeBatch, each once, then the prints, then OgaTokenizerDestroyStrings once. -/
theorem call_order_on_success (P : String) (L : Lib σ) (s : σ)
    (hok : allChecksSucceed (main P L s).trace = true) :
    ∃ n, marks (main P L s).trace =
      [.call .OgaCreateModel, .call .OgaCreateTokenizer, .call .OgaTokenizerEncodeBatch,
        .call .OgaCreateGeneratorParams, .call .OgaGeneratorParamsSetMaxLength,
        .call .OgaGeneratorParamsSetInputSequences, .call .OgaGenerate,
        .call .OgaTokenizerDecodeBatch] ++ List.replicate n .print ++
      [.call .OgaTokenizerDestroyStrings] := by
  obtain ⟨h, cs, cexit, c, ht, -, -⟩ := main_success P L s hok
  refine ⟨cs.length, ?_⟩
  rw [ht, marks_append, marks_append, marks_loopEvents]
  simp [marks, straightLine, tailEvents, Call.api]

theorem guarded_length (n : size_t) : ∀ (cs : List size_t) (i : Nat) (cexit : size_t),
    Guarded i cs cexit → (∀ c ∈ cs, c = n) → cexit = n → i ≤ n.val → cs.length = n.val - i := by
  intro cs
  induction cs with
  | nil =>
    intro i cexit hg _ hx hi
    subst hx
    simp only [Guarded] at hg
    simp only [List.length_nil]
    omega
  | cons c cs ih =>
    intro i cexit hg hall hx hi
    obtain ⟨h1, h2⟩ := hg
    have hc : c = n := hall c (List.mem_cons_self _ _)
    subst hc
    have := ih (i + 1) cexit h2 (fun x hx => hall x (List.mem_cons_of_mem _ hx)) hx h1
    simp only [List.length_cons, this]
    omega

/-- The loop against a library that always reports the count `n` for `o`. -/
theorem forLoop_const (L : Lib σ) (o : OgaSequences) (a : StringArray) (n : size_t)
    (hc : ∀ s, (L.OgaSequencesCount o s).1 = n) (s : σ) :
    (forLoop L o a 0 s).trace = loopEvents o a 0 (List.replicate n.val n) n ∧
      (forLoop L o a 0 s).value = some () := by
  obtain ⟨cs, cexit, h1, h2, h3, h4⟩ := forLoop_shape L o a 0 s
  have hall : ∀ c ∈ cexit :: cs, c = n := by
    intro c hcm
    obtain ⟨s1, rfl⟩ := h4 c hcm
    exact hc s1
  have hx : cexit = n := hall _ (List.mem_cons_self _ _)
  have hcs : ∀ c ∈ cs, c = n := fun c hcm => hall c (List.mem_cons_of_mem _ hcm)
  have hlen : cs.length = n.val - 0 := guarded_length n cs 0 cexit h3 hcs hx (Nat.zero_le _)
  have hrep : cs = List.replicate n.val n := by
    rw [List.eq_replicate_iff]
    exact ⟨by simpa using hlen, hcs⟩
  refine ⟨?_, h2⟩
  rw [h1, hx, ← hrep]
  rfl

/-- The run of the example against the scripted library when no call fails. -/
theorem script_run (P : String) (n : size_t) (strs : List String) :
    (main P (script n strs 0) 0).trace = straightLine P (scriptHandles strs) okCodes ++
        (loopEvents ⟨500⟩ ⟨600, strs⟩ 0 (List.replicate n.val n) n ++
          tailEvents (scriptHandles strs) n) := by
  obtain ⟨hl1, hl2⟩ := forLoop_const (script n strs 0) ⟨500⟩ ⟨600, strs⟩ n (fun _ => rfl) 8
  rcases hF : forLoop (script n strs 0) ⟨500⟩ ⟨600, strs⟩ 0 8 with ⟨lt, lv, ls⟩
  rw [hF] at hl1 hl2
  have hl1b : lt = loopEvents ⟨500⟩ ⟨600, strs⟩ 0 (List.replicate n.val n) n := hl1
  have hl2b : lv = some () := hl2
  subst hl1b hl2b
  generalize hR : main P (script n strs 0) 0 = R
  unfold main at hR
  rw [bind_some _ _ 0 _ ⟨.success, ⟨100⟩⟩ 1 rfl] at hR
  rw [bind_some _ _ 1 _ _ _ (check_success 1)] at hR
  dsimp only at hR
  rw [bind_some _ _ 1 _ _ _ (wrap_apply _ _ 1)] at hR
  rw [bind_some _ _ 1 _ ⟨.success, ⟨200⟩⟩ 2 rfl] at hR
  rw [bind_some _ _ 2 _ _ _ (check_success 2)] at hR
  dsimp only at hR
  rw [bind_some _ _ 2 _ _ _ (wrap_apply _ _ 2)] at hR
  rw [bind_some _ _ 2 _ ⟨.success, ⟨300⟩⟩ 3 rfl] at hR
  rw [bind_some _ _ 3 _ _ _ (check_success 3)] at hR
  dsimp only at hR
  rw [bind_some _ _ 3 _ _ _ (wrap_apply _ _ 3)] at hR
  rw [bind_some _ _ 3 _ ⟨.success, ⟨400⟩⟩ 4 rfl] at hR
  rw [bind_some _ _ 4 _ _ _ (check_success 4)] at hR
  dsimp only at hR
  rw [bind_some _ _ 4 _ _ _ (wrap_apply _ _ 4)] at hR
  rw [bind_some _ _ 4 _ ⟨.success, ()⟩ 5 rfl] at hR
  rw [bind_some _ _ 5 _ _ _ (check_success 5)] at hR
  rw [bind_some _ _ 5 _ ⟨.success, ()⟩ 6 rfl] at hR
  rw [bind_some _ _ 6 _ _ _ (check_success 6)] at hR
  rw [bind_some _ _ 6 _ ⟨.success, ⟨500⟩⟩ 7 rfl] at hR
  rw [bind_some _ _ 7 _ _ _ (check_success 7)] at hR
  dsimp only at hR
  rw [bind_some _ _ 7 _ _ _ (wrap_apply _ _ 7)] at hR
  rw [bind_some _ _ 7 _ ⟨.success, ⟨600, strs⟩⟩ 8 rfl] at hR
  rw [bind_some _ _ 8 _ _ _ (check_success 8)] at hR
  dsimp only at hR
  rw [bind_some _ _ 8 _ _ _ hF] at hR
  rw [bind_some _ _ ls _ _ _ (count_apply _ _ ls)] at hR
  subst hR
  rfl

theorem call_order_on_success_witness :
    allChecksSucceed (main "/models/" (script 3 ["a", "b", "c"] 0) 0).trace = true ∧
    ∃ n, marks (main "/models/" (script 3 ["a", "b", "c"] 0) 0).trace =
      [.call .OgaCreateModel, .call .OgaCreateTokenizer, .call .OgaTokenizerEncodeBatch,
        .call .OgaCreateGeneratorParams, .call .OgaGeneratorParamsSetMaxLength,
        .call .OgaGeneratorParamsSetInputSequences, .call .OgaGenerate,
        .call .OgaTokenizerDecodeBatch] ++ List.replicate n .print ++
      [.call .OgaTokenizerDestroyStrings] :=
  ⟨by rw [script_run]; decide,
    call_order_on_success "/models/" (script 3 ["a", "b", "c"] 0) 0 (by rw [script_run]; decide)⟩

theorem countReports_append (xs ys : List Event) :
    countReports (xs ++ ys) = countReports xs ++ countReports ys := by
  simp [countReports]

theorem countReports_loopEvents (o : OgaSequences) (a : StringArray) (cs : List size_t)
    (cexit : size_t) : ∀ i, countReports (loopEvents o a i cs cexit) = cs ++ [cexit] := by
  induction cs with
  | nil => intro i; simp [loopEvents, countReports]
  | cons c cs ih =>
    intro i
    have := ih (i + 1)
    simp [loopEvents, countReports] at this ⊢
    exact this

theorem printCount_loopEvents (o : OgaSequences) (a : StringArray) (cs : List size_t)
    (cexit : size_t) : ∀ i, printCount (loopEvents o a i cs cexit) = cs.length := by
  induction cs with
  | nil => intro i; simp [loopEvents, printCount]
  | cons c cs ih =>
    intro i
    have := ih (i + 1)
    simp [loopEvents, printCount] at this ⊢
    exact this

/-- The scripted library reports the count `n` at every query. -/
theorem script_countReports (P : String) (n : size_t) (strs : List String) :
    ∀ c ∈ countReports (main P (script n strs 0) 0).trace, c = n := by
  rw [script_run, countReports_append, countReports_append, countReports_loopEvents]
  simp only [countReports, straightLine, tailEvents, List.filterMap_cons, List.filterMap_nil,
    List.nil_append, List.mem_append, List.mem_replicate, List.mem_singleton]
  rintro c ((⟨-, h⟩ | h) | h) <;> exact h

theorem calls_append (xs ys : List Event) : calls (xs ++ ys) = calls xs ++ calls ys := by
  simp [calls]

theorem calls_loopEvents (o : OgaSequences) (a : StringArray) (cs : List size_t)
    (cexit : size_t) : ∀ i, calls (loopEvents o a i cs cexit) =
      List.replicate (cs.length + 1) (.OgaSequencesCount o) := by
  induction cs with
  | nil => intro i; simp [loopEvents, calls]
  | cons c cs ih =>
    intro i
    have := ih (i + 1)
    simp [loopEvents, calls, List.replicate_succ] at this ⊢
    exact this

theorem unchecked_loopEvents (o : OgaSequences) (a : StringArray) (cs : List size_t)
    (cexit : size_t) (rest : List Event) : ∀ i, unchecked (loopEvents o a i cs cexit ++ rest) =
      List.replicate (cs.length + 1) (.OgaSequencesCount o) ++ unchecked rest := by
  induction cs with
  | nil => intro i; simp [loopEvents, unchecked, checkedNext]
  | cons c cs ih =>
    intro i
    have := ih (i + 1)
    simp [loopEvents, unchecked, checkedNext, List.replicate_succ] at this ⊢
    exact this

/-- C3, as stated, fails: in a run where every check succeeds there are library calls
whose result is not passed to CheckResult. -/
theorem every_call_checked_counterexample :
    unchecked (main "/models/" (script 3 ["a", "b", "c"] 0) 0).trace ≠ [] := by
  rw [script_run]
  decide

/-- C3, amended. In every run, the library calls whose result is not passed to
CheckResult right after the call are exactly the calls of OgaSequencesCount and
OgaTokenizerDestroyStrings; each of the eight calls that return a result code has that
code passed to CheckResult immediately after the call. -/
theorem unchecked_calls (P : String) (L : Lib σ) (s : σ) :
    unchecked (main P L s).trace = (calls (main P L s).trace).filter isBareCall := by
  rcases main_shape P L s with ⟨h, cs, cexit, c, ht, -, -⟩ | ⟨h, k, code, hk, ht, -⟩
  · rw [ht, calls_append, calls_append, calls_loopEvents]
    simp [straightLine, okCodes, unchecked, checkedNext, unchecked_loopEvents, tailEvents, calls,
      isBareCall, Call.api, List.filter_replicate]
  · rw [ht]
    interval_cases k <;>
      simp [cut, straightLine, failCodes, unchecked, checkedNext, calls, isBareCall, Call.api]

theorem checks_success_path (P : String) (h : Handles) (cs : List size_t) (cexit c : size_t) :
    checks (straightLine P h okCodes ++
      (loopEvents h.output_sequences h.out_strings 0 cs cexit ++ tailEvents h c)) =
      List.replicate 8 .success := by
  rw [checks_append, checks_append, checks_loopEvents]
  simp [checks, straightLine, tailEvents, okCodes, List.replicate]

/-- C4. With CheckResult aborting on a non-success code: when the checked call number
k + 1 is the first to report failure (the checks seen are k successes followed by that
failure), it is one of the eight, the library calls made are exactly the first k + 1 of the
success-path sequence with the failed call last and made once, the codes returned are the
k successes and the failure, nothing is printed, and the run stops at the failed check. -/
theorem abort_at_first_failure (P : String) (L : Lib σ) (s : σ) (k code : Nat)
    (hf : checks (main P L s).trace = List.replicate k .success ++ [.failure code]) :
    k < 8 ∧
    apis (main P L s).trace = checkedApis.take (k + 1) ∧
    returned (main P L s).trace =
      (checkedApis.take (k + 1)).zip (List.replicate k .success ++ [.failure code]) ∧
    stdout (main P L s).trace = [] ∧
    (main P L s).trace.getLast? = some (.check (.failure code)) ∧
    (main P L s).value = none := by
  rcases main_shape P L s with ⟨h, cs, cexit, c, ht, -, -⟩ | ⟨h, j, code1, hj, ht, hv⟩
  · exfalso
    rw [ht, checks_success_path] at hf
    have hm : OgaResult.failure code ∈ List.replicate 8 OgaResult.success := by
      rw [hf]; simp
    simp at hm
  · rw [ht] at hf ⊢
    have hlen := congrArg List.length hf
    interval_cases j <;>
      simp [cut, straightLine, failCodes, checks] at hlen <;>
      subst hlen <;>
      simp [cut, straightLine, failCodes, checks, List.replicate] at hf <;>
      subst hf <;>
      simp [cut, straightLine, failCodes, apis, calls, returned, stdout, checkedApis, Call.api,
        List.replicate, hv]

theorem abort_at_first_failure_witness :
    checks (main "/models/" (script 3 ["a", "b", "c"] 7) 0).trace =
      List.replicate 6 .success ++ [.failure 7] ∧
    (6 < 8 ∧
    apis (main "/models/" (script 3 ["a", "b", "c"] 7) 0).trace = checkedApis.take (6 + 1) ∧
    returned (main "/models/" (script 3 ["a", "b", "c"] 7) 0).trace =
      (checkedApis.take (6 + 1)).zip (List.replicate 6 .success ++ [.failure 7]) ∧
    stdout (main "/models/" (script 3 ["a", "b", "c"] 7) 0).trace = [] ∧
    (main "/models/" (script 3 ["a", "b", "c"] 7) 0).trace.getLast? =
      some (.check (.failure 7)) ∧
    (main "/models/" (script 3 ["a", "b", "c"] 7) 0).value = none) :=
  ⟨by decide, abort_at_first_failure "/models/" (script 3 ["a", "b", "c"] 7) 0 6 7 (by decide)⟩

theorem produced_append (xs ys : List Event) :
    produced (xs ++ ys) = produced xs ++ produced ys := by
  simp [produced]

theorem produced_loopEvents (o : OgaSequences) (a : StringArray) (cs : List size_t)
    (cexit : size_t) : ∀ i, produced (loopEvents o a i cs cexit) = [] := by
  induction cs with
  | nil => intro i; simp [loopEvents, produced]
  | cons c cs ih =>
    intro i
    have := ih (i + 1)
    simp [loopEvents, produced] at this ⊢
    exact this

theorem provenance_loopEvents (known : List Handle) (o : OgaSequences) (a : StringArray)
    (cs : List size_t) (cexit : size_t) (rest : List Event) (hk : Handle.sequences o ∈ known) :
    ∀ i, provenance known (loopEvents o a i cs cexit ++ rest) = provenance known rest := by
  induction cs with
  | nil => intro i; simp [loopEvents, provenance, Call.handleArgs, hk]
  | cons c cs ih =>
    intro i
    have := ih (i + 1)
    simp [loopEvents, provenance, Call.handleArgs, hk] at this ⊢
    exact this

/-- C5. In every run, each handle passed to a library call was written earlier in the
same run by a creating call that reported success, and the checked calls made are the
leading ones of this chain: the tokenizer is created from the model of the first call; the
batch is encoded with that tokenizer; the parameters are created from that model; the
sequences attached to the parameters are the ones OgaTokenizerEncodeBatch wrote;
OgaGenerate receives that model and those parameters; OgaTokenizerDecodeBatch receives
that tokenizer and the sequences OgaGenerate wrote. -/
theorem handle_provenance (P : String) (L : Lib σ) (s : σ) :
    provenance [] (main P L s).trace = true ∧
    ∃ h : Handles,
      produced (main P L s).trace = (dataflow P h).take (checks (main P L s).trace).length := by
  rcases main_shape P L s with ⟨h, cs, cexit, c, ht, -, -⟩ | ⟨h, k, code, hk, ht, -⟩
  · refine ⟨?_, h, ?_⟩
    · rw [ht]
      simp [straightLine, okCodes, provenance, Call.handleArgs, provenance_loopEvents,
        tailEvents]
    · rw [ht, checks_success_path, produced_append, produced_append, produced_loopEvents]
      simp [produced, straightLine, tailEvents, dataflow]
  · refine ⟨?_, h, ?_⟩ <;> rw [ht] <;> interval_cases k <;>
      simp [cut, straightLine, failCodes, provenance, Call.handleArgs, produced, dataflow,
        checks]

/-- C6. In every run that reaches OgaGenerate: among the events before that call, the
calls that receive the parameters object passed to OgaGenerate are exactly
OgaGeneratorParamsSetMaxLength with 20 and OgaGeneratorParamsSetInputSequences with the
sequences written by a successful OgaTokenizerEncodeBatch of the three strings
"This is a test.", "Rats are awesome pets!", "The quick brown fox jumps over the lazy dog."
with count 3; both settings reported success, and the parameters object is the one a
successful OgaCreateGeneratorParams wrote. -/
theorem params_at_generate (P : String) (L : Lib σ) (s : σ) (m : OgaModel)
    (p : OgaGeneratorParams) (hg : generateCall (main P L s).trace = some (m, p)) :
    ∃ (t : OgaTokenizer) (q : OgaSequences),
      callsOn p (beforeGenerate (main P L s).trace) =
        [.OgaGeneratorParamsSetMaxLength p 20, .OgaGeneratorParamsSetInputSequences p q] ∧
      Event.lib (.OgaTokenizerEncodeBatch t
          ["This is a test.", "Rats are awesome pets!",
            "The quick brown fox jumps over the lazy dog."] 3)
        (.status .success (.handle (.sequences q))) ∈ beforeGenerate (main P L s).trace ∧
      Event.lib (.OgaCreateGeneratorParams m) (.status .success (.handle (.params p))) ∈
        beforeGenerate (main P L s).trace ∧
      Event.lib (.OgaGeneratorParamsSetMaxLength p 20) (.status .success .nothing) ∈
        beforeGenerate (main P L s).trace ∧
      Event.lib (.OgaGeneratorParamsSetInputSequences p q) (.status .success .nothing) ∈
        beforeGenerate (main P L s).trace := by
  have h3 : std_size ["This is a test.", "Rats are awesome pets!",
      "The quick brown fox jumps over the lazy dog."] = 3 := by decide
  rcases main_shape P L s with ⟨h, cs, cexit, c, ht, -, -⟩ | ⟨h, k, code, hk, ht, -⟩
  · rw [ht] at hg ⊢
    simp [generateCall, straightLine, okCodes] at hg
    obtain ⟨rfl, rfl⟩ := hg
    refine ⟨h.tokenizer, h.input_sequences, ?_⟩
    simp [beforeGenerate, isGenerate, straightLine, okCodes, callsOn, calls, Call.handleArgs,
      input_strings, h3]
  · rw [ht] at hg ⊢
    interval_cases k <;>
      simp [generateCall, cut, straightLine, failCodes] at hg <;>
      obtain ⟨rfl, rfl⟩ := hg <;>
      refine ⟨h.tokenizer, h.input_sequences, ?_⟩ <;>
      simp [beforeGenerate, isGenerate, cut, straightLine, failCodes, callsOn, calls,
        Call.handleArgs, input_strings, h3]

theorem params_at_generate_witness :
    generateCall (main "/models/" (script 3 ["a", "b", "c"] 8) 0).trace = some (⟨100⟩, ⟨400⟩) ∧
    ∃ (t : OgaTokenizer) (q : OgaSequences),
      callsOn ⟨400⟩ (beforeGenerate (main "/models/" (script 3 ["a", "b", "c"] 8) 0).trace) =
        [.OgaGeneratorParamsSetMaxLength ⟨400⟩ 20,
          .OgaGeneratorParamsSetInputSequences ⟨400⟩ q] ∧
      Event.lib (.OgaTokenizerEncodeBatch t
          ["This is a test.", "Rats are awesome pets!",
            "The quick brown fox jumps over the lazy dog."] 3)
        (.status .success (.handle (.sequences q))) ∈
          beforeGenerate (main "/models/" (script 3 ["a", "b", "c"] 8) 0).trace ∧
      Event.lib (.OgaCreateGeneratorParams ⟨100⟩) (.status .success (.handle (.params ⟨400⟩))) ∈
        beforeGenerate (main "/models/" (script 3 ["a", "b", "c"] 8) 0).trace ∧
      Event.lib (.OgaGeneratorParamsSetMaxLength ⟨400⟩ 20) (.status .success .nothing) ∈
        beforeGenerate (main "/models/" (script 3 ["a", "b", "c"] 8) 0).trace ∧
      Event.lib (.OgaGeneratorParamsSetInputSequences ⟨400⟩ q) (.status .success .nothing) ∈
        beforeGenerate (main "/models/" (script 3 ["a", "b", "c"] 8) 0).trace :=
  ⟨by decide, params_at_generate "/models/" (script 3 ["a", "b", "c"] 8) 0 ⟨100⟩ ⟨400⟩
    (by decide)⟩

theorem decoded_append (xs ys : List Event) :
    decoded (xs ++ ys) = decoded xs ++ decoded ys := by
  simp [decoded]

theorem decoded_loopEvents (o : OgaSequences) (a : StringArray) (cs : List size_t)
    (cexit : size_t) : ∀ i, decoded (loopEvents o a i cs cexit) = [] := by
  induction cs with
  | nil => intro i; simp [loopEvents, decoded]
  | cons c cs ih =>
    intro i
    have := ih (i + 1)
    simp [loopEvents, decoded] at this ⊢
    exact this

theorem created_append (xs ys : List Event) :
    created (xs ++ ys) = created xs ++ created ys := by
  simp [created]

theorem wrapped_append (xs ys : List Event) :
    wrapped (xs ++ ys) = wrapped xs ++ wrapped ys := by
  simp [wrapped]

theorem wrapVars_append (xs ys : List Event) :
    wrapVars (xs ++ ys) = wrapVars xs ++ wrapVars ys := by
  simp [wrapVars]

theorem created_loopEvents (o : OgaSequences) (a : StringArray) (cs : List size_t)
    (cexit : size_t) : ∀ i, created (loopEvents o a i cs cexit) = [] := by
  induction cs with
  | nil => intro i; simp [loopEvents, created]
  | cons c cs ih =>
    intro i
    have := ih (i + 1)
    simp [loopEvents, created] at this ⊢
    exact this

theorem wrapped_loopEvents (o : OgaSequences) (a : StringArray) (cs : List size_t)
    (cexit : size_t) : ∀ i, wrapped (loopEvents o a i cs cexit) = [] := by
  induction cs with
  | nil => intro i; simp [loopEvents, wrapped]
  | cons c cs ih =>
    intro i
    have := ih (i + 1)
    simp [loopEvents, wrapped] at this ⊢
    exact this

theorem wrapVars_loopEvents (o : OgaSequences) (a : StringArray) (cs : List size_t)
    (cexit : size_t) : ∀ i, wrapVars (loopEvents o a i cs cexit) = [] := by
  induction cs with
  | nil => intro i; simp [loopEvents, wrapVars]
  | cons c cs ih =>
    intro i
    have := ih (i + 1)
    simp [loopEvents, wrapVars] at this ⊢
    exact this

theorem wrapDiscipline_loopEvents (o : OgaSequences) (a : StringArray) (cs : List size_t)
    (cexit : size_t) (rest : List Event) :
    ∀ i, wrapDiscipline (loopEvents o a i cs cexit ++ rest) = wrapDiscipline rest := by
  induction cs with
  | nil => intro i; simp [loopEvents, wrapDiscipline]
  | cons c cs ih =>
    intro i
    have := ih (i + 1)
    simp [loopEvents, wrapDiscipline] at this ⊢
    exact this

/-- C8. In every run, each creating call that reported success has, right after its
CheckResult and before any other library call, the construction of one owning wrapper
around the handle it wrote, and wrappers are constructed nowhere else: the handles wrapped
are exactly the handles created, in the same order, each by its own wrapper variable
(model_ptr, tokenizer_ptr, sequences_ptr, params_ptr, output_sequences_ptr, as far as the
run got); unless the run was aborted all five are wrapped; and wrappers that release on
scope exit release each created handle exactly once. -/
theorem wrappers_own_handles (P : String) (L : Lib σ) (s : σ) :
    wrapDiscipline (main P L s).trace = true ∧
    wrapped (main P L s).trace = created (main P L s).trace ∧
    (wrapVars (main P L s).trace).Nodup ∧
    (∃ h : Handles, (wrapVars (main P L s).trace).zip (wrapped (main P L s).trace) =
      (fiveWraps h).take (created (main P L s).trace).length) ∧
    ((main P L s).value = none ∨ (created (main P L s).trace).length = 5) ∧
    (scopeExit (main P L s).trace).Perm (created (main P L s).trace) := by
  have hperm : wrapped (main P L s).trace = created (main P L s).trace →
      (scopeExit (main P L s).trace).Perm (created (main P L s).trace) := by
    intro hw
    rw [scopeExit, hw]
    exact List.reverse_perm _
  rcases main_shape P L s with ⟨h, cs, cexit, c, ht, -, -⟩ | ⟨h, k, code, hk, ht, hv⟩
  · have hw : wrapped (main P L s).trace = created (main P L s).trace := by
      rw [ht, wrapped_append, wrapped_append, wrapped_loopEvents, created_append, created_append,
        created_loopEvents]
      simp [wrapped, created, straightLine, okCodes, tailEvents]
    refine ⟨?_, hw, ?_, ⟨h, ?_⟩, Or.inr ?_, hperm hw⟩
    · rw [ht]
      simp [straightLine, okCodes, wrapDiscipline, wrapDiscipline_loopEvents, tailEvents]
    · rw [ht, wrapVars_append, wrapVars_append, wrapVars_loopEvents]
      simp [wrapVars, straightLine, tailEvents]
    · rw [ht, wrapVars_append, wrapVars_append, wrapVars_loopEvents, wrapped_append,
        wrapped_append, wrapped_loopEvents, created_append, created_append, created_loopEvents]
      simp [wrapVars, wrapped, created, straightLine, okCodes, tailEvents, fiveWraps]
    · rw [ht, created_append, created_append, created_loopEvents]
      simp [created, straightLine, okCodes, tailEvents]
  · have hw : wrapped (main P L s).trace = created (main P L s).trace := by
      rw [ht]
      interval_cases k <;> simp [cut, straightLine, failCodes, wrapped, created]
    refine ⟨?_, hw, ?_, ⟨h, ?_⟩, Or.inl hv, hperm hw⟩ <;> rw [ht] <;> interval_cases k <;>
      simp [cut, straightLine, failCodes, wrapDiscipline, wrapVars, wrapped, created, fiveWraps]

theorem reads_append (xs ys : List Event) : reads (xs ++ ys) = reads xs ++ reads ys := by
  simp [reads]

theorem stdout_loopEvents (o : OgaSequences) (a : StringArray) (cs : List size_t)
    (cexit : size_t) : ∀ i, i + cs.length ≤ a.data.length →
      stdout (loopEvents o a i cs cexit) = ((a.data.drop i).take cs.length).flatMap
        (fun x => [.cout (some "Decoded string:"), .cout (some x), .endl]) := by
  induction cs with
  | nil => intro i _; simp [loopEvents, stdout]
  | cons c cs ih =>
    intro i hi
    have hlt : i < a.data.length := by
      simp only [List.length_cons] at hi
      omega
    have := ih (i + 1) (by simp only [List.length_cons] at hi; omega)
    rw [List.drop_eq_getElem_cons hlt, List.length_cons, List.take_succ_cons,
      List.flatMap_cons, ← this]
    simp [loopEvents, stdout, List.getElem?_eq_getElem hlt]

theorem reads_loopEvents (o : OgaSequences) (a : StringArray) (cs : List size_t)
    (cexit : size_t) : ∀ i, reads (loopEvents o a i cs cexit) =
      (List.range' i cs.length).map (fun j => (a, toSize j)) := by
  induction cs with
  | nil => intro i; simp [loopEvents, reads]
  | cons c cs ih =>
    intro i
    have := ih (i + 1)
    simp [loopEvents, reads, List.range'_succ] at this ⊢
    exact this

/-- C9. For every count n that OgaSequencesCount reports for the output sequences in
every library state, and every decoded array of length n, the print loop ends without
abort after exactly n iterations; it reads the array at the indices 0, 1, ..., n-1 in
increasing order, and what it sends to std::cout is, for each element in order, the text
"Decoded string:", then the element with nothing in between, then std::endl; nothing is
printed when n = 0. -/
theorem print_loop (L : Lib σ) (o : OgaSequences) (a : StringArray) (n : size_t) (s : σ)
    (hc : ∀ s1, (L.OgaSequencesCount o s1).1 = n) (hlen : a.data.length = n.val) :
    (forLoop L o a 0 s).value = some () ∧
    printCount (forLoop L o a 0 s).trace = n.val ∧
    reads (forLoop L o a 0 s).trace = (List.range n.val).map (fun j => (a, toSize j)) ∧
    stdout (forLoop L o a 0 s).trace = a.data.flatMap
      (fun x => [.cout (some "Decoded string:"), .cout (some x), .endl]) ∧
    (n.val = 0 → stdout (forLoop L o a 0 s).trace = []) := by
  obtain ⟨ht, hv⟩ := forLoop_const L o a n hc s
  have hstd : stdout (forLoop L o a 0 s).trace = a.data.flatMap
      (fun x => [.cout (some "Decoded string:"), .cout (some x), .endl]) := by
    rw [ht, stdout_loopEvents o a _ n 0 (by simp [hlen])]
    simp [← hlen]
  refine ⟨hv, ?_, ?_, hstd, ?_⟩
  · rw [ht, printCount_loopEvents]
    simp
  · rw [ht, reads_loopEvents, List.range_eq_range']
    simp
  · intro h0
    rw [hstd]
    have : a.data = [] := List.eq_nil_of_length_eq_zero (by omega)
    simp [this]

theorem print_loop_witness :
    (∀ s1 : Nat, ((script 2 ["x", "y"] 0).OgaSequencesCount ⟨500⟩ s1).1 = 2) ∧
    (StringArray.mk 600 ["x", "y"]).data.length = (2 : size_t).val ∧
    ((forLoop (script 2 ["x", "y"] 0) ⟨500⟩ ⟨600, ["x", "y"]⟩ 0 8).value = some () ∧
    printCount (forLoop (script 2 ["x", "y"] 0) ⟨500⟩ ⟨600, ["x", "y"]⟩ 0 8).trace =
      (2 : size_t).val ∧
    reads (forLoop (script 2 ["x", "y"] 0) ⟨500⟩ ⟨600, ["x", "y"]⟩ 0 8).trace =
      (List.range (2 : size_t).val).map (fun j => (⟨600, ["x", "y"]⟩, toSize j)) ∧
    stdout (forLoop (script 2 ["x", "y"] 0) ⟨500⟩ ⟨600, ["x", "y"]⟩ 0 8).trace =
      (StringArray.mk 600 ["x", "y"]).data.flatMap
        (fun x => [.cout (some "Decoded string:"), .cout (some x), .endl]) ∧
    ((2 : size_t).val = 0 →
      stdout (forLoop (script 2 ["x", "y"] 0) ⟨500⟩ ⟨600, ["x", "y"]⟩ 0 8).trace = [])) :=
  ⟨fun _ => rfl, rfl,
    print_loop (script 2 ["x", "y"] 0) ⟨500⟩ ⟨600, ["x", "y"]⟩ 2 8 (fun _ => rfl) rfl⟩

theorem fromDestroy_append (xs ys : List Event) (hx : ∀ e ∈ xs, isDestroy e = false) :
    fromDestroy (xs ++ ys) = fromDestroy ys := by
  induction xs with
  | nil => rfl
  | cons e xs ih =>
    have he : isDestroy e = false := hx e (List.mem_cons_self _ _)
    have := ih (fun x hm => hx x (List.mem_cons_of_mem _ hm))
    simp only [fromDestroy] at this ⊢
    simp [List.dropWhile_cons, he, this]

theorem isDestroy_loopEvents (o : OgaSequences) (a : StringArray) (cs : List size_t)
    (cexit : size_t) : ∀ i, ∀ e ∈ loopEvents o a i cs cexit, isDestroy e = false := by
  induction cs with
  | nil => intro i e he; simp [loopEvents] at he; subst he; rfl
  | cons c cs ih =>
    intro i e he
    simp only [loopEvents, List.cons_append, List.nil_append, List.mem_cons] at he
    rcases he with rfl | rfl | rfl | rfl | rfl | he
    · rfl
    · rfl
    · rfl
    · rfl
    · rfl
    · exact ih (i + 1) e he

theorem toSize_le (i : Nat) : (toSize i).val ≤ i := Nat.mod_le _ _

theorem reads_loopEvents_bound (o : OgaSequences) (a : StringArray) (n : size_t)
    (cs : List size_t) (cexit : size_t) (hcs : ∀ c ∈ cs, c = n) :
    ∀ i, Guarded i cs cexit → ∀ r ∈ reads (loopEvents o a i cs cexit),
      r.1 = a ∧ r.2.val < n.val := by
  induction cs with
  | nil => intro i _ r hr; simp [loopEvents, reads] at hr
  | cons c cs ih =>
    intro i hg r hr
    obtain ⟨h1, h2⟩ := hg
    have hc : c = n := hcs c (List.mem_cons_self _ _)
    subst hc
    simp only [loopEvents, reads, List.cons_append, List.nil_append, List.filterMap_cons,
      List.mem_cons] at hr
    rcases hr with rfl | hr
    · exact ⟨rfl, Nat.lt_of_le_of_lt (toSize_le i) h1⟩
    · exact ih (fun x hx => hcs x (List.mem_cons_of_mem _ hx)) (i + 1) h2 r hr

/-- The scripted library decodes to an array holding `strs`. -/
theorem script_decoded (P : String) (n : size_t) (strs : List String) :
    ∀ a ∈ decoded (main P (script n strs 0) 0).trace, a.data.length = strs.length := by
  rw [script_run, decoded_append, decoded_append, decoded_loopEvents]
  simp [decoded, straightLine, tailEvents, scriptHandles]

/-- C10. Assuming every array written by OgaTokenizerDecodeBatch holds n strings and
every OgaSequencesCount report of the run is n: each read of out_strings is a read of the
decoded array at an index strictly below n, hence inside the array; and no read follows
the OgaTokenizerDestroyStrings call. -/
theorem reads_within_bounds (P : String) (L : Lib σ) (s : σ) (n : size_t)
    (hc : ∀ c ∈ countReports (main P L s).trace, c = n)
    (hlen : ∀ a ∈ decoded (main P L s).trace, a.data.length = n.val) :
    (∀ r ∈ reads (main P L s).trace,
      r.1 ∈ decoded (main P L s).trace ∧ r.2.val < n.val ∧ r.2.val < r.1.data.length) ∧
    reads (fromDestroy (main P L s).trace) = [] := by
  rcases main_shape P L s with ⟨h, cs, cexit, c, ht, -, hg⟩ | ⟨h, k, code, hk, ht, -⟩
  · have hdec : decoded (main P L s).trace = [h.out_strings] := by
      rw [ht, decoded_append, decoded_append, decoded_loopEvents]
      simp [decoded, straightLine, tailEvents]
    have hcs : ∀ x ∈ cs, x = n := by
      intro x hx
      apply hc
      rw [ht, countReports_append, countReports_append, countReports_loopEvents]
      simp [hx]
    have hl : h.out_strings.data.length = n.val := hlen _ (by rw [hdec]; simp)
    refine ⟨?_, ?_⟩
    · intro r hr
      rw [ht, reads_append, reads_append] at hr
      have hr2 : r ∈ reads (loopEvents h.output_sequences h.out_strings 0 cs cexit) := by
        simpa [reads, straightLine, tailEvents] using hr
      obtain ⟨e1, e2⟩ := reads_loopEvents_bound _ _ n cs cexit hcs 0 hg r hr2
      rw [hdec, e1]
      exact ⟨by simp, e2, by rw [hl]; exact e2⟩
    · rw [ht, ← List.append_assoc, fromDestroy_append]
      · simp [fromDestroy, tailEvents, isDestroy, reads]
      · intro e he
        rcases List.mem_append.1 he with he | he
        · simp [straightLine] at he
          rcases he with rfl | rfl | rfl | rfl | rfl | rfl | rfl | rfl | rfl | rfl | rfl | rfl |
            rfl | rfl | rfl | rfl | rfl | rfl | rfl | rfl | rfl <;> rfl
        · exact isDestroy_loopEvents _ _ _ _ _ e he
  · rw [ht]
    refine ⟨?_, ?_⟩ <;> interval_cases k <;>
      simp [cut, straightLine, failCodes, reads, fromDestroy, isDestroy]

theorem reads_within_bounds_witness :
    (∀ c ∈ countReports (main "/models/" (script 3 ["x", "y", "z"] 0) 0).trace, c = 3) ∧
    (∀ a ∈ decoded (main "/models/" (script 3 ["x", "y", "z"] 0) 0).trace,
      a.data.length = (3 : size_t).val) ∧
    ((∀ r ∈ reads (main "/models/" (script 3 ["x", "y", "z"] 0) 0).trace,
      r.1 ∈ decoded (main "/models/" (script 3 ["x", "y", "z"] 0) 0).trace ∧
        r.2.val < (3 : size_t).val ∧ r.2.val < r.1.data.length) ∧
    reads (fromDestroy (main "/models/" (script 3 ["x", "y", "z"] 0) 0).trace) = []) :=
  ⟨script_countReports _ _ _, script_decoded _ _ _,
    reads_within_bounds "/models/" (script 3 ["x", "y", "z"] 0) 0 3
      (script_countReports _ _ _) (script_decoded _ _ _)⟩

/-! ## The trace predicates tell good traces from bad ones -/

/-- A call that uses a handle no creating call wrote is rejected by `provenance`. -/
theorem provenance_rejects_unknown_handle :
    provenance [] [.lib (.OgaCreateTokenizer ⟨1⟩) (.status .success (.handle (.tokenizer ⟨2⟩)))] =
      false := by
  decide

/-- A created handle that is not wrapped right after its check is rejected by
`wrapDiscipline`. -/
theorem wrapDiscipline_rejects_missing_wrap :
    wrapDiscipline [.lib (.OgaCreateModel "m" .OgaDeviceTypeCPU)
      (.status .success (.handle (.model ⟨1⟩))), .check .success,
      .lib (.OgaCreateTokenizer ⟨1⟩) (.status .success (.handle (.tokenizer ⟨2⟩)))] = false := by
  decide

/-- A result code that is dropped shows up in `unchecked`. -/
theorem unchecked_finds_dropped_code :
    unchecked [.lib (.OgaGeneratorParamsSetMaxLength ⟨4⟩ 20) (.status .success .nothing),
      .lib (.OgaGenerate ⟨1⟩ ⟨4⟩) (.status .success (.handle (.sequences ⟨5⟩))),
      .check .success] = [.OgaGeneratorParamsSetMaxLength ⟨4⟩ 20] := by
  decide

/-- When the library reports a count above the length of the decoded array, the loop
reads past the end of the array: the element printed is indeterminate. -/
theorem short_array_read_past_end :
    Event.cout none ∈ (main "/models/" (script 2 ["a"] 0) 0).trace := by
  rw [script_run]
  decide

/-- Every one of the eight checked calls can be the first to fail. -/
theorem every_check_can_fail :
    ∀ k ∈ List.range 8, checks (main "/models/" (script 3 ["a", "b", "c"] (k + 1)) 0).trace =
      List.replicate k .success ++ [.failure 7] := by
  decide

end Phi
